import Mathlib

/-!
# GoBarcodeService: request parameters, handlers and label compositing

A shallow embedding of `main.go` (functions `parseParams`, `handleQR`,
`handleDataMatrix`, `handleEAN128`, `handleEAN13`, `addLabel`) together with the
parts of the Go standard library and of `golang.org/x/image` that these
functions call, followed by the properties established about them.

Go `int` is the 64-bit signed integer; values are kept in `Int`, and no
computation of the embedded functions leaves the 64-bit range for coordinates
below 2^62. `fixed.Int26_6` is an `int32`, and every conversion to it and every
addition in it wraps explicitly (`toInt32`). The panics of `image.NewRGBA` are
part of the model (`NewRGBA` returns `none`), the 2^48-byte limit of `make` on
a 64-bit platform included.
-/

namespace GoBarcodeService

/-! ## strconv.Atoi -/

/-- Value of an ASCII digit byte, `ch - '0'`. -/
def digitVal (c : Char) : Int := (c.toNat : Int) - 48

/-- The digit loop of `strconv.Atoi`: `n = n*10 + int(ch)` from the left. -/
def digitsVal (ds : List Char) : Int :=
  ds.foldl (fun n ch => n * 10 + digitVal ch) 0

/-- Go `strconv.Atoi` on a 64-bit platform: an optional sign `+` or `-`
followed by one or more ASCII digits, whose value fits `int`
(`-2^63 ≤ v < 2^63`); `none` stands for a returned error (syntax or range). -/
def Atoi (s : String) : Option Int :=
  match s.toList with
  | [] => none
  | c :: cs =>
    let neg := c == '-'
    let ds := if c == '-' || c == '+' then cs else c :: cs
    if ds.isEmpty then none
    else if ds.all Char.isDigit then
      let n := digitsVal ds
      if neg then (if n ≤ 2 ^ 63 then some (-n) else none)
      else (if n < 2 ^ 63 then some n else none)
    else none

/-! ## net/url Values and net/http Request -/

/-- Go `url.Values` (`map[string][]string`): a key that is absent maps to the
empty slice. -/
abbrev Values := String → List String

/-- `Values.Get`: the first value of the key, or the empty string. -/
def Values.Get (v : Values) (key : String) : String :=
  match v key with
  | [] => ""
  | x :: _ => x

/-- The empty `url.Values`. -/
def Values.empty : Values := fun _ => []

/-- `Values.Set`: replace the values of one key. -/
def Values.Set (v : Values) (key : String) (vals : List String) : Values :=
  fun k => if k = key then vals else v k

/-- What `parseParams` reads of an `*http.Request`: the outcome of parsing the
request body as a form (`parsePostForm`, empty for GET) and the outcome of
`url.ParseQuery(r.URL.RawQuery)`, each a set of values and a possible error. -/
structure Request where
  postValues : Values
  postErr : Option String
  queryValues : Values
  queryErr : Option String

/-- `r.ParseForm()`: `r.Form` holds the body values followed by the URL query
values of every key (`copyValues`); the error is the body error if there is
one, else the query error. -/
def Request.ParseForm (r : Request) : Values × Option String :=
  (fun k => r.postValues k ++ r.queryValues k,
   match r.postErr with
   | some e => some e
   | none => r.queryErr)

/-- `r.URL.Query()`: the values of the URL query, malformed pairs dropped. -/
def Request.URLQuery (r : Request) : Values := r.queryValues

/-! ## parseParams -/

/-- `qr.ErrorCorrectionLevel`. -/
inductive ErrorCorrectionLevel where
  | L | M | Q | H
deriving DecidableEq, Repr

/-- `RequestParams` of main.go. -/
structure RequestParams where
  Text : String
  Width : Int
  Height : Int
  QrLevel : ErrorCorrectionLevel
deriving DecidableEq, Repr

/-- Go integer division `a / b` (truncation toward zero). -/
def goDiv (a b : Int) : Int := Int.tdiv a b

/-- `parseParams` of main.go; `Except.error msg` is the returned `error`. -/
def parseParams (r : Request) : Except String RequestParams :=
  match r.ParseForm with
  | (_, some err) => .error err
  | (form, none) =>
    let text := form.Get "text"
    if text = "" then .error "missing text"
    else
      let width : Int :=
        let wStr := form.Get "width"
        if wStr ≠ "" then
          match Atoi wStr with
          | some wInt => if wInt > 0 then wInt else 256
          | none => 256
        else 256
      let height : Int :=
        let hStr := form.Get "height"
        if hStr ≠ "" then
          match Atoi hStr with
          | some hInt => if hInt > 0 then hInt else goDiv width 2
          | none => goDiv width 2
        else goDiv width 2
      let qrLevel : ErrorCorrectionLevel :=
        let cStr := r.URLQuery.Get "level"
        if cStr ≠ "" then
          match Atoi cStr with
          | some cInt =>
            if cInt = 1 then .L
            else if cInt = 2 then .M
            else if cInt = 3 then .Q
            else if cInt = 4 then .H
            else .M
          | none => .M
        else .M
      .ok { Text := text, Width := width, Height := height, QrLevel := qrLevel }

/-! ## The response writer and the handlers -/

/-- One write to the response body: the text line `fmt.Fprintln` writes for
`http.Error`, or the bytes `png.Encode` writes. -/
inductive BodyPart where
  | text (line : String)
  | png (bytes : List Nat)
deriving DecidableEq, Repr

/-- The state of an `http.ResponseWriter`: the header map, the status code
once the header has been written, and what was written to the body. -/
structure ResponseWriter where
  header : Values
  status : Option Nat
  body : List BodyPart

/-- A response writer as the server hands it to a handler. -/
def ResponseWriter.fresh : ResponseWriter :=
  { header := Values.empty, status := none, body := [] }

/-- `w.Header().Set(key, value)`. -/
def ResponseWriter.SetHeader (w : ResponseWriter) (key value : String) : ResponseWriter :=
  { w with header := w.header.Set key [value] }

/-- `w.Header().Del(key)`. -/
def ResponseWriter.DelHeader (w : ResponseWriter) (key : String) : ResponseWriter :=
  { w with header := w.header.Set key [] }

/-- `w.WriteHeader(code)`: the first status code sticks. -/
def ResponseWriter.WriteHeader (w : ResponseWriter) (code : Nat) : ResponseWriter :=
  match w.status with
  | none => { w with status := some code }
  | some _ => w

/-- `w.Write(...)`: sends status 200 first when no header was written yet. -/
def ResponseWriter.Write (w : ResponseWriter) (part : BodyPart) : ResponseWriter :=
  let w1 := w.WriteHeader 200
  { w1 with body := w1.body ++ [part] }

/-- `http.StatusBadRequest`. -/
def StatusBadRequest : Nat := 400

/-- `http.StatusInternalServerError`. -/
def StatusInternalServerError : Nat := 500

/-- `http.Error(w, error, code)`: plain-text content type, the status code,
then the message and a newline as the body. -/
def httpError (w : ResponseWriter) (error : String) (code : Nat) : ResponseWriter :=
  let w1 := w.DelHeader "Content-Length"
  let w2 := w1.SetHeader "Content-Type" "text/plain; charset=utf-8"
  let w3 := w2.SetHeader "X-Content-Type-Options" "nosniff"
  let w4 := w3.WriteHeader code
  w4.Write (.text (error ++ "\n"))

/-! ## Images (packages image, image/color, image/draw) -/

/-- `image.Point`. -/
structure Point where
  X : Int
  Y : Int
deriving DecidableEq, Repr

/-- `image.Rectangle`: the points with `Min.X ≤ x < Max.X`, `Min.Y ≤ y < Max.Y`. -/
structure Rectangle where
  Min : Point
  Max : Point
deriving DecidableEq, Repr

/-- `image.ZR`, the zero rectangle. -/
def ZR : Rectangle := ⟨⟨0, 0⟩, ⟨0, 0⟩⟩

/-- `image.Rect(x0, y0, x1, y1)`: swaps the coordinates where needed so that
the result is well-formed. -/
def Rect (x0 y0 x1 y1 : Int) : Rectangle :=
  ⟨⟨if x0 > x1 then x1 else x0, if y0 > y1 then y1 else y0⟩,
   ⟨if x0 > x1 then x0 else x1, if y0 > y1 then y0 else y1⟩⟩

/-- `r.Dx()`. -/
def Rectangle.Dx (r : Rectangle) : Int := r.Max.X - r.Min.X

/-- `r.Dy()`. -/
def Rectangle.Dy (r : Rectangle) : Int := r.Max.Y - r.Min.Y

/-- `r.Empty()`. -/
def Rectangle.Empty (r : Rectangle) : Bool :=
  decide (r.Min.X ≥ r.Max.X) || decide (r.Min.Y ≥ r.Max.Y)

/-- `p.Sub(q)`. -/
def Point.Sub (p q : Point) : Point := ⟨p.X - q.X, p.Y - q.Y⟩

/-- `r.Add(p)`: the rectangle translated by `p`. -/
def Rectangle.Add (r : Rectangle) (p : Point) : Rectangle :=
  ⟨⟨r.Min.X + p.X, r.Min.Y + p.Y⟩, ⟨r.Max.X + p.X, r.Max.Y + p.Y⟩⟩

/-- `r.Intersect(s)`: the largest rectangle in both, `ZR` when they do not
overlap. -/
def Rectangle.Intersect (r s : Rectangle) : Rectangle :=
  let t : Rectangle :=
    ⟨⟨if r.Min.X < s.Min.X then s.Min.X else r.Min.X,
      if r.Min.Y < s.Min.Y then s.Min.Y else r.Min.Y⟩,
     ⟨if r.Max.X > s.Max.X then s.Max.X else r.Max.X,
      if r.Max.Y > s.Max.Y then s.Max.Y else r.Max.Y⟩⟩
  if t.Empty then ZR else t

/-- `p.In(r)`. -/
def Point.In (p : Point) (r : Rectangle) : Bool :=
  decide (r.Min.X ≤ p.X) && decide (p.X < r.Max.X) &&
  decide (r.Min.Y ≤ p.Y) && decide (p.Y < r.Max.Y)

/-- `color.RGBA`: four 8-bit channels, alpha-premultiplied. -/
structure RGBA where
  R : Nat
  G : Nat
  B : Nat
  A : Nat
deriving DecidableEq, Repr

/-- `color.White` as stored in an RGBA image. -/
def White : RGBA := ⟨255, 255, 255, 255⟩

/-- `color.RGBA{0, 0, 0, 255}`, the text colour of addLabel. -/
def Black : RGBA := ⟨0, 0, 0, 255⟩

/-- An `image.Image`: its bounds and its pixel function `At(x, y)`. A pixel
is held as the `color.RGBA` value that a draw with `draw.Src` into an
`*image.RGBA` stores for it. The same record serves for `*image.RGBA`,
`*image.Uniform` and the `*image.Alpha` glyph mask (whose value is in `A`). -/
structure Image where
  Bounds : Rectangle
  At : Int → Int → RGBA

/-- The largest number of bytes `make([]uint8, n)` accepts on a 64-bit
platform (`maxAlloc` of the Go runtime, 2^48); `makeslice` panics for a longer
slice. -/
def maxAlloc : Int := 2 ^ 48

/-- `image.NewRGBA(r)`: all pixels zero; `none` where Go panics: a dimension
is negative or `4 * Dx * Dy` does not fit `int` (`pixelBufferLength`,
`mul3NonNeg`), or the pixel buffer of `4 * Dx * Dy` bytes is longer than
`make` accepts (`maxAlloc`). -/
def NewRGBA (r : Rectangle) : Option Image :=
  if 0 ≤ r.Dx ∧ 0 ≤ r.Dy ∧ 4 * r.Dx < 2 ^ 64 ∧ 4 * r.Dx * r.Dy < 2 ^ 63 ∧
      4 * r.Dx * r.Dy ≤ maxAlloc then
    some { Bounds := r, At := fun _ _ => ⟨0, 0, 0, 0⟩ }
  else none

/-- `image.NewUniform(c)`: one colour everywhere, bounds of ±10^9. -/
def NewUniform (c : RGBA) : Image :=
  { Bounds := ⟨⟨-1000000000, -1000000000⟩, ⟨1000000000, 1000000000⟩⟩
    At := fun _ _ => c }

/-- `draw.Draw(dst, r, src, sp, draw.Src)` for an RGBA destination: `r` is
clipped to the destination bounds and to the source bounds moved by
`r.Min - sp` (function `clip`); every remaining pixel takes the source pixel
at the same offset from `sp`. -/
def Draw (dst : Image) (r : Rectangle) (src : Image) (sp : Point) : Image :=
  let orig := r.Min
  let r1 := (r.Intersect dst.Bounds).Intersect (src.Bounds.Add (orig.Sub sp))
  { Bounds := dst.Bounds
    At := fun x y =>
      if (Point.mk x y).In r1 then src.At (sp.X + (x - orig.X)) (sp.Y + (y - orig.Y))
      else dst.At x y }

/-- One channel of `drawGlyphOver`, in `uint32` arithmetic:
`uint8((d*a + s*ma) / m >> 8)` with `m = 0xffff`, `ma` the mask byte widened
to 16 bits, `s` and `sa` the 16-bit source channel and source alpha, and
`a = (m - sa*ma/m) * 0x101`. -/
def overChannel (d s8 sa8 mask8 : Nat) : Nat :=
  let m := 0xffff
  let s := s8 * 0x101
  let sa := sa8 * 0x101
  let ma := mask8 * 0x101
  let a := ((m - sa * ma / m) * 0x101) % 2 ^ 32
  (((d * a + s * ma) % 2 ^ 32) / m / 2 ^ 8) % 2 ^ 8

/-- `draw.DrawMask(dst, r, src, sp, mask, mp, draw.Over)` for an RGBA
destination, a uniform source and an alpha mask (`drawGlyphOver`): `r` is
clipped to destination, source and mask; a pixel whose mask byte is zero is
skipped, every other pixel is blended with the source colour. -/
def DrawMaskOver (dst : Image) (r : Rectangle) (src : Image) (sp : Point)
    (mask : Image) (mp : Point) : Image :=
  let orig := r.Min
  let r1 := ((r.Intersect dst.Bounds).Intersect (src.Bounds.Add (orig.Sub sp))).Intersect
    (mask.Bounds.Add (orig.Sub mp))
  { Bounds := dst.Bounds
    At := fun x y =>
      if (Point.mk x y).In r1 then
        let ma := (mask.At (mp.X + (x - orig.X)) (mp.Y + (y - orig.Y))).A
        if ma = 0 then dst.At x y
        else
          let s := src.At (sp.X + (x - orig.X)) (sp.Y + (y - orig.Y))
          let d := dst.At x y
          ⟨overChannel d.R s.R s.A ma, overChannel d.G s.G s.A ma,
           overChannel d.B s.B s.A ma, overChannel d.A s.A s.A ma⟩
      else dst.At x y }

/-! ## Fixed-point coordinates and the font drawer (golang.org/x/image) -/

/-- Conversion to `int32` (two's complement wrap-around); `fixed.Int26_6` is
an `int32` counting 64ths of a pixel. -/
def toInt32 (v : Int) : Int := (v + 2 ^ 31) % 2 ^ 32 - 2 ^ 31

/-- `fixed.Point26_6`. -/
structure Point26_6 where
  X : Int
  Y : Int
deriving DecidableEq, Repr

/-- `fixed.I(i)`: `Int26_6(i << 6)`. -/
def fixedI (i : Int) : Int := toInt32 (i * 64)

/-- `fixed.P(x, y)`: `Point26_6{Int26_6(x << 6), Int26_6(y << 6)}`. -/
def fixedP (x y : Int) : Point26_6 := ⟨toInt32 (x * 64), toInt32 (y * 64)⟩

/-- `Int26_6.Ceil`: `int((x + 0x3f) >> 6)`. -/
def Ceil (x : Int) : Int := toInt32 (x + 63) / 64

/-- `basicfont.Range`: runes `Low ≤ r < High` map to the sub-images of the
mask from index `Offset` on. -/
structure Range where
  Low : Nat
  High : Nat
  Offset : Int
deriving DecidableEq, Repr

/-- `basicfont.Face`: a face whose glyphs all have the same metrics. -/
structure Face where
  Advance : Int
  Width : Int
  Height : Int
  Ascent : Int
  Descent : Int
  Left : Int
  Mask : Image
  Ranges : List Range

/-- The range of a face that holds the rune, if any. -/
def Face.findRange (f : Face) (rr : Nat) : Option Range :=
  f.Ranges.find? (fun rng => !(decide (rr < rng.Low) || decide (rng.High ≤ rr)))

/-- `Face.Glyph(dot, r)`: destination rectangle, mask point, advance and
`ok`. A rune outside every range is drawn as U+FFFD. -/
def Face.Glyph (f : Face) (dot : Point26_6) (r : Char) : Rectangle × Point × Int × Bool :=
  let hit : Option (Nat × Range) :=
    match f.findRange r.toNat with
    | some rng => some (r.toNat, rng)
    | none =>
      match f.findRange 0xfffd with
      | some rng => some (0xfffd, rng)
      | none => none
  match hit with
  | none => (ZR, ⟨0, 0⟩, 0, false)
  | some (rr, rng) =>
    let maskpY := ((rr : Int) - (rng.Low : Int) + rng.Offset) * (f.Ascent + f.Descent)
    let x := toInt32 (dot.X + 32) / 64 + f.Left
    let y := toInt32 (dot.Y + 32) / 64
    (⟨⟨x, y - f.Ascent⟩, ⟨x + f.Width, y + f.Descent⟩⟩, ⟨0, maskpY⟩, fixedI f.Advance, true)

/-- `Face.GlyphAdvance(r)`: the same advance for every rune, always ok. -/
def Face.GlyphAdvance (f : Face) (_r : Char) : Int × Bool := (fixedI f.Advance, true)

/-- The glyph mask `mask7x13`: an alpha image of width 6 and height 96 * 13
whose bytes are the table `pix` (row-major, stride 6). -/
def mask7x13 (pix : Nat → Nat) : Image :=
  { Bounds := ⟨⟨0, 0⟩, ⟨6, 96 * 13⟩⟩
    At := fun x y =>
      if (Point.mk x y).In ⟨⟨0, 0⟩, ⟨6, 96 * 13⟩⟩ then
        ⟨0, 0, 0, pix (y * 6 + x).toNat⟩
      else ⟨0, 0, 0, 0⟩ }

/-- `basicfont.Face7x13`; the mask bytes are the parameter `pix`. -/
def Face7x13 (pix : Nat → Nat) : Face :=
  { Advance := 7, Width := 6, Height := 13, Ascent := 11, Descent := 2, Left := 0
    Mask := mask7x13 pix
    Ranges := [⟨0x20, 0x7f, 0⟩, ⟨0xfffd, 0xfffe, 95⟩] }

/-- `font.Drawer`. -/
structure Drawer where
  Dst : Image
  Src : Image
  Face : Face
  Dot : Point26_6

/-- `font.MeasureString` from an accumulated advance on: every rune adds its
glyph advance in `Int26_6` arithmetic (the kerning of a basicfont face is 0). -/
def measureFrom (f : Face) (advance : Int) : List Char → Int
  | [] => advance
  | c :: cs =>
    let (a, ok) := f.GlyphAdvance c
    if ok then measureFrom f (toInt32 (advance + a)) cs
    else measureFrom f advance cs

/-- `d.MeasureString(s)`. -/
def Drawer.MeasureString (d : Drawer) (s : String) : Int :=
  measureFrom d.Face 0 s.toList

/-- The loop of `d.DrawString`: each rune is drawn at the dot through
`draw.DrawMask` with `draw.Over`, then the dot advances. -/
def Drawer.drawRunes (d : Drawer) : List Char → Drawer
  | [] => d
  | c :: cs =>
    let (dr, maskp, advance, _) := d.Face.Glyph d.Dot c
    let dst := if !dr.Empty then DrawMaskOver d.Dst dr d.Src ⟨0, 0⟩ d.Face.Mask maskp
      else d.Dst
    Drawer.drawRunes
      { d with Dst := dst, Dot := ⟨toInt32 (d.Dot.X + advance), d.Dot.Y⟩ } cs

/-- `d.DrawString(s)`. -/
def Drawer.DrawString (d : Drawer) (s : String) : Drawer :=
  d.drawRunes s.toList

/-! ## addLabel -/

/-- `addLabel` of main.go, for the font face `face` (`basicfont.Face7x13` in
the program); `none` where `image.NewRGBA` panics. -/
def addLabel (face : Face) (img : Image) (text : String) : Option Image :=
  let bounds := img.Bounds
  let newHeight := bounds.Dy + 20
  match NewRGBA (Rect 0 0 bounds.Dx newHeight) with
  | none => none
  | some newImg =>
    let newImg1 := Draw newImg newImg.Bounds (NewUniform White) ⟨0, 0⟩
    let newImg2 := Draw newImg1 bounds img bounds.Min
    let col := Black
    let d : Drawer :=
      { Dst := newImg2, Src := NewUniform col, Face := face
        Dot := fixedP (goDiv bounds.Dx 2 - (text.utf8ByteSize : Int) * 3) (bounds.Dy + 15) }
    let textWidth := Ceil (d.MeasureString text)
    let x := goDiv (bounds.Dx - textWidth) 2
    let y := bounds.Dy + 15
    let d1 : Drawer := { d with Dot := fixedP x y }
    some (d1.DrawString text).Dst

/-- The first half of addLabel: the new RGBA image of size `(Dx, Dy + 20)` at
the origin, filled white, with the source drawn over the rectangle `bounds`;
`none` where `image.NewRGBA` panics. -/
def labelCanvas (img : Image) : Option Image :=
  let bounds := img.Bounds
  let newHeight := bounds.Dy + 20
  match NewRGBA (Rect 0 0 bounds.Dx newHeight) with
  | none => none
  | some newImg =>
    let newImg1 := Draw newImg newImg.Bounds (NewUniform White) ⟨0, 0⟩
    some (Draw newImg1 bounds img bounds.Min)

/-- The second half of addLabel up to the call of `d.DrawString(text)`: the
drawer on the canvas `newImg`, constructed with the `Dot` value `dot0` and
then moved to `fixed.P(x, y)`. -/
def labelDrawer (face : Face) (dot0 : Point26_6) (newImg : Image) (bounds : Rectangle)
    (text : String) : Drawer :=
  let col := Black
  let d : Drawer := { Dst := newImg, Src := NewUniform col, Face := face, Dot := dot0 }
  let textWidth := Ceil (d.MeasureString text)
  let x := goDiv (bounds.Dx - textWidth) 2
  let y := bounds.Dy + 15
  { d with Dot := fixedP x y }

/-- The body of addLabel with the `Dot` given at construction of the drawer
as a parameter; addLabel is the instance
`dot0 = fixed.P(bounds.Dx()/2 - len(text)*3, bounds.Dy()+15)`. -/
def addLabelFrom (face : Face) (dot0 : Point26_6) (img : Image) (text : String) :
    Option Image :=
  match labelCanvas img with
  | none => none
  | some newImg =>
    some ((labelDrawer face dot0 newImg img.Bounds text).DrawString text).Dst

/-! ## The handlers -/

/-- The external collaborators of the handlers: the four symbol encoders of
`github.com/boombuler/barcode` (an `Except.error` is the returned `error`),
`barcode.Scale`, the palette reduction (`image.NewPaletted` followed by
`draw.FloydSteinberg.Draw`), the bytes `png.Encode` writes for an image, and
the glyph table of `basicfont.Face7x13`. -/
structure Codecs where
  qrEncode : String → ErrorCorrectionLevel → Except String Image
  datamatrixEncode : String → Except String Image
  code128Encode : String → Except String Image
  eanEncode : String → Except String Image
  Scale : Image → Int → Int → Except String Image
  floydSteinberg : Image → Image
  pngEncode : Image → List Nat
  fontPix : Nat → Nat

/-- An invocation of a pipeline stage by a handler. -/
inductive Call where
  | encode (text : String)
  | scale (width height : Int)
  | quantize
  | label (text : String)
  | png
deriving DecidableEq, Repr

/-- What a handler leaves behind: the response writer, the pipeline stages it
invoked in order, and whether it ended in a panic (of `image.NewRGBA`). -/
structure Exchange where
  w : ResponseWriter
  calls : List Call
  panicked : Bool

/-- `handleQR` of main.go. -/
def handleQR (env : Codecs) (w : ResponseWriter) (r : Request) : Exchange :=
  match parseParams r with
  | .error err => ⟨httpError w err StatusBadRequest, [], false⟩
  | .ok params =>
    match env.qrEncode params.Text params.QrLevel with
    | .error err => ⟨httpError w err StatusInternalServerError, [.encode params.Text], false⟩
    | .ok code =>
      match env.Scale code params.Width params.Width with
      | .error err =>
        ⟨httpError w err StatusInternalServerError,
         [.encode params.Text, .scale params.Width params.Width], false⟩
      | .ok scaled =>
        let w1 := w.SetHeader "Content-Type" "image/png"
        let bwImg := env.floydSteinberg scaled
        ⟨w1.Write (.png (env.pngEncode bwImg)),
         [.encode params.Text, .scale params.Width params.Width, .quantize, .png], false⟩

/-- `handleDataMatrix` of main.go. -/
def handleDataMatrix (env : Codecs) (w : ResponseWriter) (r : Request) : Exchange :=
  match parseParams r with
  | .error err => ⟨httpError w err StatusBadRequest, [], false⟩
  | .ok params =>
    match env.datamatrixEncode params.Text with
    | .error err => ⟨httpError w err StatusInternalServerError, [.encode params.Text], false⟩
    | .ok code =>
      match env.Scale code params.Width params.Width with
      | .error err =>
        ⟨httpError w err StatusInternalServerError,
         [.encode params.Text, .scale params.Width params.Width], false⟩
      | .ok scaled =>
        let w1 := w.SetHeader "Content-Type" "image/png"
        let bwImg := env.floydSteinberg scaled
        ⟨w1.Write (.png (env.pngEncode bwImg)),
         [.encode params.Text, .scale params.Width params.Width, .quantize, .png], false⟩

/-- `handleEAN128` of main.go. -/
def handleEAN128 (env : Codecs) (w : ResponseWriter) (r : Request) : Exchange :=
  match parseParams r with
  | .error err => ⟨httpError w err StatusBadRequest, [], false⟩
  | .ok params =>
    match env.code128Encode params.Text with
    | .error err => ⟨httpError w err StatusInternalServerError, [.encode params.Text], false⟩
    | .ok code =>
      match env.Scale code params.Width params.Height with
      | .error err =>
        ⟨httpError w err StatusInternalServerError,
         [.encode params.Text, .scale params.Width params.Height], false⟩
      | .ok scaled =>
        match addLabel (Face7x13 env.fontPix) scaled params.Text with
        | none =>
          ⟨w, [.encode params.Text, .scale params.Width params.Height, .label params.Text],
           true⟩
        | some withLabel =>
          let w1 := w.SetHeader "Content-Type" "image/png"
          ⟨w1.Write (.png (env.pngEncode withLabel)),
           [.encode params.Text, .scale params.Width params.Height, .label params.Text, .png],
           false⟩

/-- `handleEAN13` of main.go. -/
def handleEAN13 (env : Codecs) (w : ResponseWriter) (r : Request) : Exchange :=
  match parseParams r with
  | .error err => ⟨httpError w err StatusBadRequest, [], false⟩
  | .ok params =>
    match env.eanEncode params.Text with
    | .error err => ⟨httpError w err StatusInternalServerError, [.encode params.Text], false⟩
    | .ok code =>
      match env.Scale code params.Width params.Height with
      | .error err =>
        ⟨httpError w err StatusInternalServerError,
         [.encode params.Text, .scale params.Width params.Height], false⟩
      | .ok scaled =>
        match addLabel (Face7x13 env.fontPix) scaled params.Text with
        | none =>
          ⟨w, [.encode params.Text, .scale params.Width params.Height, .label params.Text],
           true⟩
        | some withLabel =>
          let w1 := w.SetHeader "Content-Type" "image/png"
          ⟨w1.Write (.png (env.pngEncode withLabel)),
           [.encode params.Text, .scale params.Width params.Height, .label params.Text, .png],
           false⟩

/-! ## Notions used to state the properties -/

/-- The form value of a key, as `r.Form.Get(key)` reads it after `ParseForm`. -/
def Request.FormGet (r : Request) (key : String) : String := r.ParseForm.1.Get key

/-- The request with the URL query `width` replaced by the given values and
no `width` in the body. -/
def Request.withWidth (r : Request) (vals : List String) : Request :=
  { r with postValues := r.postValues.Set "width" []
           queryValues := r.queryValues.Set "width" vals }

/-- Index of the glyph of a rune in the mask of Face7x13: the printable ASCII
runes in order from the space on, and the replacement glyph (index 95) for
every other rune. -/
def glyphIndex (c : Char) : Nat :=
  if 0x20 ≤ c.toNat ∧ c.toNat < 0x7f then c.toNat - 0x20 else 95

/-- The mask byte of a rune at column `dx` and row `dy` of its 6 x 13 cell. -/
def glyphAlpha (pix : Nat → Nat) (c : Char) (dx dy : Int) : Nat :=
  pix (((glyphIndex c : Int) * 13 + dy) * 6 + dx).toNat

/-- The pixel `(x, y)` is inked by the runes `cs` laid out from the pixel
position `a` on the baseline `b`: rune number `i` occupies the columns
`a + 7 i ≤ x < a + 7 i + 6` and the rows `b - 11 ≤ y < b + 2`, and inks the
pixels of that cell whose mask byte is not zero. -/
def inkedRunes (pix : Nat → Nat) (a b : Int) (cs : List Char) (x y : Int) : Prop :=
  ∃ i : Nat, i < cs.length ∧
    (a + 7 * (i : Int) ≤ x ∧ x < a + 7 * (i : Int) + 6 ∧ b - 11 ≤ y ∧ y < b + 2 ∧
      glyphAlpha pix (cs.getD i ' ') (x - (a + 7 * (i : Int))) (y - (b - 11)) ≠ 0)

instance (pix : Nat → Nat) (a b : Int) (cs : List Char) (x y : Int) :
    Decidable (inkedRunes pix a b cs x y) := by
  unfold inkedRunes
  infer_instance

/-- The sizes for which the 26.6 fixed-point coordinates of the drawer hold
every position of the label exactly: a well-formed source rectangle narrower
than 2^25 pixels and lower than 2^25 - 15 pixels, and a text of fewer than
2^22 runes. -/
def LabelInRange (img : Image) (text : String) : Prop :=
  0 ≤ img.Bounds.Dx ∧ img.Bounds.Dx < 2 ^ 25 ∧
  0 ≤ img.Bounds.Dy ∧ img.Bounds.Dy + 15 < 2 ^ 25 ∧
  text.length < 2 ^ 22

instance (img : Image) (text : String) : Decidable (LabelInRange img text) := by
  unfold LabelInRange
  infer_instance

/-! ## Sample inputs -/

/-- A GET request whose URL query holds the given key/value pairs, in order. -/
def getRequest (kvs : List (String × String)) : Request :=
  { postValues := Values.empty
    postErr := none
    queryValues := fun k => (kvs.filter (fun kv => kv.1 = k)).map (fun kv => kv.2)
    queryErr := none }

/-- A one-pixel image at the origin. -/
def dotImage (c : RGBA) : Image :=
  { Bounds := ⟨⟨0, 0⟩, ⟨1, 1⟩⟩, At := fun _ _ => c }

/-- Sample collaborators: every encoder rejects every text. -/
def rejectingCodecs : Codecs :=
  { qrEncode := fun _ _ => .error "rejected"
    datamatrixEncode := fun _ => .error "rejected"
    code128Encode := fun _ => .error "rejected"
    eanEncode := fun _ => .error "invalid ean code data"
    Scale := fun img _ _ => .ok img
    floydSteinberg := fun img => img
    pngEncode := fun _ => []
    fontPix := fun _ => 0 }

/-- A white image one pixel wide and 2^25 - 15 pixels high, at the origin. -/
def tallImage : Image :=
  { Bounds := ⟨⟨0, 0⟩, ⟨1, 33554417⟩⟩, At := fun _ _ => White }

/-- A white image 6 pixels wide and 2^26 pixels high, at the origin. -/
def tallerImage : Image :=
  { Bounds := ⟨⟨0, 0⟩, ⟨6, 67108864⟩⟩, At := fun _ _ => White }

/-- A black image of one pixel whose bounds start at (1, 0). -/
def shiftedDot : Image :=
  { Bounds := ⟨⟨1, 0⟩, ⟨2, 1⟩⟩, At := fun _ _ => Black }

/-- A white image 2^26 + 7 pixels wide and one pixel high, at the origin. -/
def wideImage : Image :=
  { Bounds := ⟨⟨0, 0⟩, ⟨67108871, 1⟩⟩, At := fun _ _ => White }

/-- A white image 2^24 pixels wide and 2^24 pixels high, at the origin; the
canvas addLabel needs for it has more than 2^50 bytes. -/
def squareImage : Image :=
  { Bounds := ⟨⟨0, 0⟩, ⟨16777216, 16777216⟩⟩, At := fun _ _ => White }

/-- A text of 4793491 runes. -/
def longText : String := String.mk (List.replicate 4793491 'a')

/-! ## Properties of parseParams -/

theorem digitChar_facts (k : Nat) (h : k < 10) :
    (Nat.digitChar k).isDigit = true ∧ digitVal (Nat.digitChar k) = (k : Int) := by
  interval_cases k <;> exact ⟨by decide, by decide⟩

theorem toDigitsCore_decimal (fuel : Nat) :
    ∀ (n : Nat) (ds : List Char), n < fuel →
      ∃ pre : List Char, Nat.toDigitsCore 10 fuel n ds = pre ++ ds ∧ pre ≠ [] ∧
        (∀ c ∈ pre, c.isDigit = true) ∧ digitsVal pre = (n : Int) := by
  induction fuel with
  | zero => intro n ds h; omega
  | succ fuel ih =>
    intro n ds hn
    obtain ⟨hd1, hd2⟩ := digitChar_facts (n % 10) (Nat.mod_lt _ (by decide))
    rw [Nat.toDigitsCore]
    split
    · rename_i h0
      refine ⟨[Nat.digitChar (n % 10)], rfl, by simp, ?_, ?_⟩
      · intro c hc
        simp only [List.mem_singleton] at hc
        rw [hc]; exact hd1
      · simp only [digitsVal, List.foldl, hd2]
        omega
    · rename_i h0
      obtain ⟨pre, hpre, _, hall, hval⟩ := ih (n / 10) (Nat.digitChar (n % 10) :: ds) (by omega)
      refine ⟨pre ++ [Nat.digitChar (n % 10)], by rw [hpre]; simp, by simp, ?_, ?_⟩
      · intro c hc
        simp only [List.mem_append, List.mem_singleton] at hc
        rcases hc with hc | hc
        · exact hall c hc
        · rw [hc]; exact hd1
      · simp only [digitsVal, List.foldl_append, List.foldl, hd2] at hval ⊢
        rw [hval]
        omega

/-- Atoi reads the decimal numeral of every natural number that fits `int`
as that number. -/
theorem Atoi_repr (n : Nat) (h : n < 2 ^ 63) : Atoi (Nat.repr n) = some (n : Int) := by
  obtain ⟨pre, hpre, hne, hall, hval⟩ := toDigitsCore_decimal (n + 1) n [] (by omega)
  have hlist : (Nat.repr n).toList = pre := by
    simp only [Nat.repr, Nat.toDigits, hpre, List.append_nil]
    rfl
  unfold Atoi
  rw [hlist]
  cases pre with
  | nil => exact absurd rfl hne
  | cons c cs =>
    have hc : c.isDigit = true := hall c (by simp)
    have hc1 : (c == '-') = false := by
      rw [beq_eq_false_iff_ne]
      rintro rfl
      exact absurd hc (by decide)
    have hc2 : (c == '+') = false := by
      rw [beq_eq_false_iff_ne]
      rintro rfl
      exact absurd hc (by decide)
    have hall2 : (c :: cs).all Char.isDigit = true := by
      rw [List.all_eq_true]
      exact hall
    have hlt : (n : Int) < 2 ^ 63 := by exact_mod_cast h
    simp only [hc1, hc2, Bool.or_self, Bool.false_eq_true, if_false, List.isEmpty_cons,
      hall2, if_true, hval, hlt]

theorem goDiv_two (v : Int) :
    goDiv v 2 = if 0 ≤ v then v / 2 else -((-v) / 2) := by
  unfold goDiv
  split
  · rename_i h
    exact Int.tdiv_eq_ediv h (by decide)
  · rename_i h
    have hv : v = -(-v) := by omega
    rw [hv, Int.neg_tdiv, Int.tdiv_eq_ediv (by omega) (by decide)]
    simp

theorem goDiv_two_bounds (v : Int) :
    2 * goDiv v 2 ≤ v + 1 ∧ v - 1 ≤ 2 * goDiv v 2 ∧ (0 ≤ v → 0 ≤ goDiv v 2) ∧
    (v ≤ 0 → goDiv v 2 ≤ 0) := by
  rw [goDiv_two]
  split <;> omega

theorem parseParams_of_text (r : Request) (hparse : r.ParseForm.2 = none)
    (htext : r.FormGet "text" ≠ "") :
    parseParams r = .ok
      { Text := r.FormGet "text"
        Width :=
          match Atoi (r.FormGet "width") with
          | some n => if n > 0 then n else 256
          | none => 256
        Height :=
          match Atoi (r.FormGet "height") with
          | some h => if h > 0 then h
            else goDiv (match Atoi (r.FormGet "width") with
              | some n => if n > 0 then n else 256
              | none => 256) 2
          | none => goDiv (match Atoi (r.FormGet "width") with
              | some n => if n > 0 then n else 256
              | none => 256) 2
        QrLevel :=
          match Atoi (r.queryValues.Get "level") with
          | some c => if c = 1 then .L else if c = 2 then .M else if c = 3 then .Q
            else if c = 4 then .H else .M
          | none => .M } := by
  have hpf : r.ParseForm = (r.ParseForm.1, none) := by
    rw [← hparse]
  have hA : Atoi "" = none := by decide
  unfold parseParams
  rw [hpf]
  simp only [Request.FormGet] at htext ⊢
  simp only [htext, if_false, Request.URLQuery]
  congr 1
  by_cases hw : r.ParseForm.1.Get "width" = "" <;>
  by_cases hh : r.ParseForm.1.Get "height" = "" <;>
  by_cases hl : r.queryValues.Get "level" = "" <;>
  simp [hw, hh, hl, hA]

theorem parseParams_ok_inv (r : Request) (p : RequestParams) (h : parseParams r = .ok p) :
    r.ParseForm.2 = none ∧ r.FormGet "text" ≠ "" := by
  have hpf : r.ParseForm = (r.ParseForm.1, r.ParseForm.2) := rfl
  unfold parseParams at h
  rw [hpf] at h
  cases h2 : r.ParseForm.2 with
  | some e => rw [h2] at h; simp at h
  | none =>
    refine ⟨rfl, ?_⟩
    intro ht
    rw [h2] at h
    simp only [Request.FormGet] at ht
    simp [ht] at h

theorem parseParams_missing_text (r : Request) (hparse : r.ParseForm.2 = none)
    (htext : r.FormGet "text" = "") : parseParams r = .error "missing text" := by
  have hpf : r.ParseForm = (r.ParseForm.1, none) := by
    rw [← hparse]
  unfold parseParams
  rw [hpf]
  simp only [Request.FormGet] at htext
  simp [htext]

theorem parseParams_parse_error (r : Request) (e : String) (hparse : r.ParseForm.2 = some e) :
    parseParams r = .error e := by
  have hpf : r.ParseForm = (r.ParseForm.1, some e) := by
    rw [← hparse]
  unfold parseParams
  rw [hpf]

theorem parseParams_dimensions (r : Request) (p : RequestParams) (h : parseParams r = .ok p) :
    p.Text ≠ "" ∧ 0 < p.Width ∧ 0 ≤ p.Height ∧ (p.Height = 0 → p.Width = 1) := by
  obtain ⟨hparse, htext⟩ := parseParams_ok_inv r p h
  rw [parseParams_of_text r hparse htext] at h
  injection h with h
  subst h
  have hw : ∀ o : Option Int, 0 < (match o with
      | some n => if n > 0 then n else 256
      | none => (256 : Int)) := by
    intro o
    cases o with
    | none => decide
    | some n => 
      simp only
      split <;> omega
  refine ⟨htext, hw _, ?_, ?_⟩
  · have hw1 := hw (Atoi (r.FormGet "width"))
    simp only
    rw [goDiv_two]
    split
    · split <;> omega
    · split <;> omega
  · have hw1 := hw (Atoi (r.FormGet "width"))
    simp only
    rw [goDiv_two]
    split
    · split <;> omega
    · split <;> omega

/-- C1: for every request whose form data parses, parseParams returns the
error "missing text" (and no RequestParams) when the form value of `text` is
absent or empty, and returns a RequestParams whose Text is that value when it
is non-empty, whatever `width`, `height` and `level` hold. -/
theorem parseParams_fails_iff_text_missing (r : Request) (hparse : r.ParseForm.2 = none) :
    (r.FormGet "text" = "" → parseParams r = .error "missing text") ∧
    (r.FormGet "text" ≠ "" → ∃ p, parseParams r = .ok p ∧ p.Text = r.FormGet "text") ∧
    ((∃ p, parseParams r = .ok p) ↔ r.FormGet "text" ≠ "") := by
  refine ⟨parseParams_missing_text r hparse, ?_, ?_⟩
  · intro ht
    exact ⟨_, parseParams_of_text r hparse ht, rfl⟩
  · constructor
    · rintro ⟨p, hp⟩
      exact (parseParams_ok_inv r p hp).2
    · intro ht
      exact ⟨_, parseParams_of_text r hparse ht⟩

theorem parseParams_fails_iff_text_missing_witness :
    (getRequest [("width", "abc"), ("level", "9")]).ParseForm.2 = none ∧
    parseParams (getRequest [("width", "abc"), ("level", "9")]) = .error "missing text" :=
  ⟨rfl, (parseParams_fails_iff_text_missing
    (getRequest [("width", "abc"), ("level", "9")]) rfl).1 (by decide)⟩

/-- C2 (evaluation at the failing input): the request `text=A&width=1` with no
`height` is accepted by parseParams and the RequestParams it returns has
Height 0, so it is not the case that every RequestParams parseParams returns
has a non-empty Text, Width > 0 and Height > 0. -/
theorem parseParams_width_one_height_zero :
    parseParams (getRequest [("text", "A"), ("width", "1")])
      = .ok { Text := "A", Width := 1, Height := 0, QrLevel := .M } ∧
    ¬ (∀ (r : Request) (p : RequestParams), parseParams r = .ok p →
        p.Text ≠ "" ∧ 0 < p.Width ∧ 0 < p.Height) := by
  have heval : parseParams (getRequest [("text", "A"), ("width", "1")])
      = .ok { Text := "A", Width := 1, Height := 0, QrLevel := .M } := rfl
  refine ⟨heval, ?_⟩
  intro hall
  have h := (hall _ _ heval).2.2
  exact absurd h (by decide)

/-- C3: for every request with non-empty text, Width is n when Atoi reads the
`width` value as an integer n > 0 (in particular when the value is the decimal
numeral of a positive n below 2^63), and 256 in every other case (absent,
empty, not an integer, zero, negative, too large); a request with width=abc
yields the same result as the same request with `width` omitted. -/
theorem parseParams_width_resolution (r : Request) (hparse : r.ParseForm.2 = none)
    (htext : r.FormGet "text" ≠ "") :
    ∃ p, parseParams r = .ok p ∧
      (∀ n, Atoi (r.FormGet "width") = some n → 0 < n → p.Width = n) ∧
      (∀ n : Nat, 0 < n → n < 2 ^ 63 → r.FormGet "width" = Nat.repr n →
        p.Width = (n : Int)) ∧
      ((∀ n, Atoi (r.FormGet "width") = some n → n ≤ 0) → p.Width = 256) ∧
      (r.FormGet "width" ∈ ["", "abc", "0", "-7", "12.5", "9223372036854775808"] →
        p.Width = 256) ∧
      parseParams (r.withWidth ["abc"]) = parseParams (r.withWidth []) := by
  refine ⟨_, parseParams_of_text r hparse htext, ?_, ?_, ?_, ?_, ?_⟩
  · intro n hn hpos
    simp [hn, hpos]
  · intro n hpos hlt hrepr
    have hpos2 : (0 : Int) < (n : Int) := by exact_mod_cast hpos
    simp [hrepr, Atoi_repr n hlt, hpos2]
  · intro hall
    cases hA : Atoi (r.FormGet "width") with
    | none => simp
    | some n =>
      have := hall n hA
      simp [Int.not_lt.mpr this]
  · intro hmem
    simp only [List.mem_cons, List.mem_singleton, List.not_mem_nil, or_false] at hmem
    have h1 : Atoi "" = none := by decide
    have h2 : Atoi "abc" = none := by decide
    have h3 : Atoi "0" = some 0 := by decide
    have h4 : Atoi "-7" = some (-7) := by decide
    have h5 : Atoi "12.5" = none := by decide
    have h6 : Atoi "9223372036854775808" = none := by decide
    rcases hmem with h | h | h | h | h | h <;> simp [h, h1, h2, h3, h4, h5, h6]
  · have hsame : ∀ v, (r.withWidth v).ParseForm.2 = r.ParseForm.2 := fun _ => rfl
    have htxt : ∀ v, (r.withWidth v).FormGet "text" = r.FormGet "text" := by
      intro v
      simp [Request.withWidth, Request.FormGet, Request.ParseForm, Values.Set, Values.Get]
    have hhgt : ∀ v, (r.withWidth v).FormGet "height" = r.FormGet "height" := by
      intro v
      simp [Request.withWidth, Request.FormGet, Request.ParseForm, Values.Set, Values.Get]
    have hlvl : ∀ v, (r.withWidth v).queryValues.Get "level" = r.queryValues.Get "level" := by
      intro v
      simp [Request.withWidth, Values.Set, Values.Get]
    have hw1 : (r.withWidth ["abc"]).FormGet "width" = "abc" := by
      simp [Request.withWidth, Request.FormGet, Request.ParseForm, Values.Set, Values.Get]
    have hw2 : (r.withWidth []).FormGet "width" = "" := by
      simp [Request.withWidth, Request.FormGet, Request.ParseForm, Values.Set, Values.Get]
    have h1 : Atoi "" = none := by decide
    have h2 : Atoi "abc" = none := by decide
    rw [parseParams_of_text _ ((hsame _).trans hparse) (by rw [htxt]; exact htext),
      parseParams_of_text _ ((hsame _).trans hparse) (by rw [htxt]; exact htext)]
    simp [htxt, hhgt, hlvl, hw1, hw2, h1, h2]

theorem parseParams_width_resolution_witness :
    (getRequest [("text", "A"), ("width", "100")]).ParseForm.2 = none ∧
    (getRequest [("text", "A"), ("width", "100")]).FormGet "text" ≠ "" ∧
    ∃ p, parseParams (getRequest [("text", "A"), ("width", "100")]) = .ok p ∧
      p.Width = 100 :=
  ⟨rfl, by decide,
   (parseParams_width_resolution (getRequest [("text", "A"), ("width", "100")]) rfl
      (by decide)).imp
     (fun _ hp => ⟨hp.1, hp.2.1 100 (by decide) (by decide)⟩)⟩

/-- C4: for every request with non-empty text, Height is h when Atoi reads the
`height` value as an integer h > 0 (in particular when the value is the
decimal numeral of a positive h below 2^63), and otherwise the resolved Width
divided by 2 (integer division); no width and no height gives 256 and 128,
width=100 and no height gives 100 and 50. -/
theorem parseParams_height_resolution (r : Request) (hparse : r.ParseForm.2 = none)
    (htext : r.FormGet "text" ≠ "") :
    ∃ p, parseParams r = .ok p ∧
      (∀ h, Atoi (r.FormGet "height") = some h → 0 < h → p.Height = h) ∧
      (∀ h : Nat, 0 < h → h < 2 ^ 63 → r.FormGet "height" = Nat.repr h →
        p.Height = (h : Int)) ∧
      ((∀ h, Atoi (r.FormGet "height") = some h → h ≤ 0) → p.Height = goDiv p.Width 2) ∧
      (r.FormGet "width" = "" → r.FormGet "height" = "" → p.Width = 256 ∧ p.Height = 128) ∧
      (r.FormGet "width" = "100" → r.FormGet "height" = "" →
        p.Width = 100 ∧ p.Height = 50) := by
  have h1 : Atoi "" = none := by decide
  have h2 : Atoi "100" = some 100 := by decide
  refine ⟨_, parseParams_of_text r hparse htext, ?_, ?_, ?_, ?_, ?_⟩
  · intro h hh hpos
    simp [hh, hpos]
  · intro h hpos hlt hrepr
    have hpos2 : (0 : Int) < (h : Int) := by exact_mod_cast hpos
    simp [hrepr, Atoi_repr h hlt, hpos2]
  · intro hall
    cases hA : Atoi (r.FormGet "height") with
    | none => simp
    | some h =>
      have := hall h hA
      simp [Int.not_lt.mpr this]
  · intro hw hh
    simp only [hw, hh, h1]
    exact ⟨trivial, by decide⟩
  · intro hw hh
    simp only [hw, hh, h1, h2]
    exact ⟨by decide, by decide⟩

theorem parseParams_height_resolution_witness :
    (getRequest [("text", "A"), ("width", "100")]).ParseForm.2 = none ∧
    (getRequest [("text", "A"), ("width", "100")]).FormGet "text" ≠ "" ∧
    ∃ p, parseParams (getRequest [("text", "A"), ("width", "100")]) = .ok p ∧
      p.Width = 100 ∧ p.Height = 50 :=
  ⟨rfl, by decide,
   (parseParams_height_resolution (getRequest [("text", "A"), ("width", "100")]) rfl
      (by decide)).imp
     (fun _ hp => ⟨hp.1, hp.2.2.2.2.2 (by decide) (by decide)⟩)⟩

/-- C5: for every request with non-empty text, QrLevel depends only on the
`level` value of the URL query: values that Atoi reads as 1, 2, 3, 4 give L,
M, Q, H, every other value (absent, empty, non-numeric, another integer) gives
M, and any other accepted request with the same URL `level` value (whatever
its text, width, height and body) gets the same QrLevel. -/
theorem parseParams_level_mapping (r : Request) (hparse : r.ParseForm.2 = none)
    (htext : r.FormGet "text" ≠ "") :
    ∃ p, parseParams r = .ok p ∧
      (Atoi (r.queryValues.Get "level") = some 1 → p.QrLevel = .L) ∧
      (Atoi (r.queryValues.Get "level") = some 2 → p.QrLevel = .M) ∧
      (Atoi (r.queryValues.Get "level") = some 3 → p.QrLevel = .Q) ∧
      (Atoi (r.queryValues.Get "level") = some 4 → p.QrLevel = .H) ∧
      ((∀ n, Atoi (r.queryValues.Get "level") = some n → n ≠ 1 ∧ n ≠ 3 ∧ n ≠ 4) →
        p.QrLevel = .M) ∧
      (r.queryValues.Get "level" ∈ ["", "abc", "5", "0", "-1"] → p.QrLevel = .M) ∧
      (r.queryValues.Get "level" = "1" → p.QrLevel = .L) ∧
      (r.queryValues.Get "level" = "2" → p.QrLevel = .M) ∧
      (r.queryValues.Get "level" = "3" → p.QrLevel = .Q) ∧
      (r.queryValues.Get "level" = "4" → p.QrLevel = .H) ∧
      (∀ r2 p2, parseParams r2 = .ok p2 →
        r2.queryValues.Get "level" = r.queryValues.Get "level" → p2.QrLevel = p.QrLevel) := by
  have a1 : Atoi "1" = some 1 := by decide
  have a2 : Atoi "2" = some 2 := by decide
  have a3 : Atoi "3" = some 3 := by decide
  have a4 : Atoi "4" = some 4 := by decide
  refine ⟨_, parseParams_of_text r hparse htext, ?_, ?_, ?_, ?_, ?_, ?_,
    fun h => by simp [h, a1], fun h => by simp [h, a2], fun h => by simp [h, a3],
    fun h => by simp [h, a4], ?_⟩
  · intro h; simp [h]
  · intro h; simp [h]
  · intro h; simp [h]
  · intro h; simp [h]
  · intro hall
    cases hA : Atoi (r.queryValues.Get "level") with
    | none => simp
    | some n =>
      obtain ⟨n1, n3, n4⟩ := hall n hA
      simp only [n1, n3, n4, if_false]
      split <;> rfl
  · intro hmem
    simp only [List.mem_cons, List.mem_singleton, List.not_mem_nil, or_false] at hmem
    have h1 : Atoi "" = none := by decide
    have h2 : Atoi "abc" = none := by decide
    have h3 : Atoi "5" = some 5 := by decide
    have h4 : Atoi "0" = some 0 := by decide
    have h5 : Atoi "-1" = some (-1) := by decide
    rcases hmem with h | h | h | h | h <;> simp [h, h1, h2, h3, h4, h5]
  · intro r2 p2 hp2 hlv
    obtain ⟨hparse2, htext2⟩ := parseParams_ok_inv r2 p2 hp2
    rw [parseParams_of_text r2 hparse2 htext2] at hp2
    injection hp2 with hp2
    rw [← hp2]
    simp only [hlv]

theorem parseParams_level_mapping_witness :
    (getRequest [("text", "A"), ("level", "3")]).ParseForm.2 = none ∧
    (getRequest [("text", "A"), ("level", "3")]).FormGet "text" ≠ "" ∧
    ∃ p, parseParams (getRequest [("text", "A"), ("level", "3")]) = .ok p ∧
      p.QrLevel = .Q :=
  ⟨rfl, by decide,
   (parseParams_level_mapping (getRequest [("text", "A"), ("level", "3")]) rfl
      (by decide)).imp
     (fun _ hp => ⟨hp.1, hp.2.2.2.1 (by decide)⟩)⟩

/-! ## Properties of the handlers -/

theorem httpError_fresh (msg : String) (code : Nat) :
    (httpError ResponseWriter.fresh msg code).status = some code ∧
    (httpError ResponseWriter.fresh msg code).body = [.text (msg ++ "\n")] ∧
    (httpError ResponseWriter.fresh msg code).header.Get "Content-Type"
      = "text/plain; charset=utf-8" := by
  refine ⟨rfl, rfl, ?_⟩
  simp [httpError, ResponseWriter.Write, ResponseWriter.WriteHeader, ResponseWriter.SetHeader,
    ResponseWriter.DelHeader, ResponseWriter.fresh, Values.Set, Values.Get]

theorem handleQR_parse_error (env : Codecs) (w : ResponseWriter) (r : Request) (msg : String)
    (h : parseParams r = .error msg) :
    handleQR env w r = ⟨httpError w msg 400, [], false⟩ := by
  simp only [handleQR, h, StatusBadRequest]

theorem handleDataMatrix_parse_error (env : Codecs) (w : ResponseWriter) (r : Request)
    (msg : String) (h : parseParams r = .error msg) :
    handleDataMatrix env w r = ⟨httpError w msg 400, [], false⟩ := by
  simp only [handleDataMatrix, h, StatusBadRequest]

theorem handleEAN128_parse_error (env : Codecs) (w : ResponseWriter) (r : Request)
    (msg : String) (h : parseParams r = .error msg) :
    handleEAN128 env w r = ⟨httpError w msg 400, [], false⟩ := by
  simp only [handleEAN128, h, StatusBadRequest]

theorem handleEAN13_parse_error (env : Codecs) (w : ResponseWriter) (r : Request)
    (msg : String) (h : parseParams r = .error msg) :
    handleEAN13 env w r = ⟨httpError w msg 400, [], false⟩ := by
  simp only [handleEAN13, h, StatusBadRequest]

theorem handleEAN13_encode_error (env : Codecs) (w : ResponseWriter) (r : Request)
    (p : RequestParams) (msg : String) (hp : parseParams r = .ok p)
    (henc : env.eanEncode p.Text = .error msg) :
    handleEAN13 env w r = ⟨httpError w msg 500, [.encode p.Text], false⟩ := by
  simp only [handleEAN13, hp, henc, StatusInternalServerError]

theorem parseParams_error_of_no_text (r : Request) (htext : r.FormGet "text" = "") :
    ∃ msg, parseParams r = .error msg ∧ (r.ParseForm.2 = none → msg = "missing text") := by
  cases hp : r.ParseForm.2 with
  | none => exact ⟨_, parseParams_missing_text r hp htext, fun _ => rfl⟩
  | some e => exact ⟨e, parseParams_parse_error r e hp, fun h => by simp at h⟩

/-- C7: on each of the four routes, for every request whose `text` is missing
or empty, the response has status 400, its body is the error message as one
plain-text line (content type text/plain, not image/png), and no pipeline
stage (symbol encoder, scaler, quantizer, labeller, PNG encoder) is invoked:
the list of invoked stages is empty and the outcome is the same whatever the
collaborators are. -/
theorem handlers_reject_missing_text (env : Codecs) (r : Request)
    (htext : r.FormGet "text" = "") :
    ∃ msg, parseParams r = .error msg ∧ (r.ParseForm.2 = none → msg = "missing text") ∧
      ∀ h ∈ [handleQR, handleDataMatrix, handleEAN128, handleEAN13],
        (h env ResponseWriter.fresh r).w.status = some 400 ∧
        (h env ResponseWriter.fresh r).w.body = [.text (msg ++ "\n")] ∧
        (h env ResponseWriter.fresh r).w.header.Get "Content-Type"
          = "text/plain; charset=utf-8" ∧
        (h env ResponseWriter.fresh r).calls = [] ∧
        (h env ResponseWriter.fresh r).panicked = false ∧
        (∀ env2 : Codecs, h env2 ResponseWriter.fresh r = h env ResponseWriter.fresh r) := by
  obtain ⟨msg, hmsg, hmt⟩ := parseParams_error_of_no_text r htext
  refine ⟨msg, hmsg, hmt, ?_⟩
  intro h hh
  obtain ⟨h1, h2, h3⟩ := httpError_fresh msg 400
  simp only [List.mem_cons, List.mem_singleton, List.not_mem_nil, or_false] at hh
  rcases hh with rfl | rfl | rfl | rfl
  · rw [handleQR_parse_error env _ r msg hmsg]
    exact ⟨h1, h2, h3, rfl, rfl, fun env2 => handleQR_parse_error env2 _ r msg hmsg⟩
  · rw [handleDataMatrix_parse_error env _ r msg hmsg]
    exact ⟨h1, h2, h3, rfl, rfl, fun env2 => handleDataMatrix_parse_error env2 _ r msg hmsg⟩
  · rw [handleEAN128_parse_error env _ r msg hmsg]
    exact ⟨h1, h2, h3, rfl, rfl, fun env2 => handleEAN128_parse_error env2 _ r msg hmsg⟩
  · rw [handleEAN13_parse_error env _ r msg hmsg]
    exact ⟨h1, h2, h3, rfl, rfl, fun env2 => handleEAN13_parse_error env2 _ r msg hmsg⟩

theorem handlers_reject_missing_text_witness :
    (getRequest [("width", "100")]).FormGet "text" = "" ∧
    ∃ msg, parseParams (getRequest [("width", "100")]) = .error msg ∧
      (handleEAN13 rejectingCodecs ResponseWriter.fresh
        (getRequest [("width", "100")])).w.status = some 400 ∧
      (handleEAN13 rejectingCodecs ResponseWriter.fresh
        (getRequest [("width", "100")])).calls = [] :=
  ⟨by decide,
   (handlers_reject_missing_text rejectingCodecs (getRequest [("width", "100")])
      (by decide)).imp
     (fun _ hp => ⟨hp.1, (hp.2.2 handleEAN13 (by simp)).1,
       (hp.2.2 handleEAN13 (by simp)).2.2.2.1⟩)⟩

/-- C6 (as stated, refuted): it is not the case that handleEAN13 answers every
request whose text the EAN encoder rejects with a 400-class status; for
`text=abc` and an encoder that rejects it the status is 500. -/
theorem handleEAN13_rejected_text_not_400 :
    ¬ (∀ (env : Codecs) (r : Request) (p : RequestParams) (msg : String),
        parseParams r = .ok p → env.eanEncode p.Text = .error msg →
        ∃ s, (handleEAN13 env ResponseWriter.fresh r).w.status = some s ∧ 400 ≤ s ∧ s < 500) := by
  intro h
  obtain ⟨s, hs, h1, h2⟩ := h rejectingCodecs (getRequest [("text", "abc")])
    { Text := "abc", Width := 256, Height := 128, QrLevel := .M } "invalid ean code data"
    rfl rfl
  have h500 : (handleEAN13 rejectingCodecs ResponseWriter.fresh
      (getRequest [("text", "abc")])).w.status = some 500 := rfl
  rw [h500] at hs
  injection hs with hs
  omega

/-- C6 (amended): whenever the EAN encoder rejects the text of an accepted
request, handleEAN13 answers with status 500, the encoder's message as one
plain-text line, and nothing else: the scaler, the labeller and the PNG
encoder are not invoked and no image is written. -/
theorem handleEAN13_rejected_text_500 (env : Codecs) (r : Request) (p : RequestParams)
    (msg : String) (hp : parseParams r = .ok p) (henc : env.eanEncode p.Text = .error msg) :
    (handleEAN13 env ResponseWriter.fresh r).w.status = some 500 ∧
    (handleEAN13 env ResponseWriter.fresh r).w.body = [.text (msg ++ "\n")] ∧
    (handleEAN13 env ResponseWriter.fresh r).w.header.Get "Content-Type"
      = "text/plain; charset=utf-8" ∧
    (handleEAN13 env ResponseWriter.fresh r).calls = [.encode p.Text] ∧
    (handleEAN13 env ResponseWriter.fresh r).panicked = false := by
  obtain ⟨h1, h2, h3⟩ := httpError_fresh msg 500
  rw [handleEAN13_encode_error env _ r p msg hp henc]
  exact ⟨h1, h2, h3, rfl, rfl⟩

theorem handleEAN13_rejected_text_500_witness :
    (handleEAN13 rejectingCodecs ResponseWriter.fresh
      (getRequest [("text", "12345678901")])).w.status = some 500 ∧
    (handleEAN13 rejectingCodecs ResponseWriter.fresh
      (getRequest [("text", "12345678901")])).w.body
      = [.text ("invalid ean code data" ++ "\n")] ∧
    (handleEAN13 rejectingCodecs ResponseWriter.fresh
      (getRequest [("text", "12345678901")])).w.header.Get "Content-Type"
      = "text/plain; charset=utf-8" ∧
    (handleEAN13 rejectingCodecs ResponseWriter.fresh
      (getRequest [("text", "12345678901")])).calls = [.encode "12345678901"] ∧
    (handleEAN13 rejectingCodecs ResponseWriter.fresh
      (getRequest [("text", "12345678901")])).panicked = false :=
  handleEAN13_rejected_text_500 rejectingCodecs (getRequest [("text", "12345678901")])
    { Text := "12345678901", Width := 256, Height := 128, QrLevel := .M }
    "invalid ean code data" rfl rfl

theorem addLabel_eq (face : Face) (img : Image) (text : String) :
    addLabel face img text
      = addLabelFrom face
          (fixedP (goDiv img.Bounds.Dx 2 - (text.utf8ByteSize : Int) * 3)
            (img.Bounds.Dy + 15)) img text := by
  unfold addLabel addLabelFrom labelCanvas
  dsimp only
  cases NewRGBA (Rect 0 0 img.Bounds.Dx (img.Bounds.Dy + 20)) <;> rfl

theorem toInt32_of_range (v : Int) (h1 : -2 ^ 31 ≤ v) (h2 : v < 2 ^ 31) : toInt32 v = v := by
  unfold toInt32
  omega

theorem pixel_of_dot (a : Int) (h1 : -2 ^ 25 ≤ a) (h2 : a < 2 ^ 25) :
    toInt32 (64 * a + 32) / 64 = a := by
  rw [toInt32_of_range _ (by omega) (by omega)]
  omega

theorem fixedP_of_range (x y : Int) (hx1 : -2 ^ 25 ≤ x) (hx2 : x < 2 ^ 25)
    (hy1 : -2 ^ 25 ≤ y) (hy2 : y < 2 ^ 25) : fixedP x y = ⟨64 * x, 64 * y⟩ := by
  unfold fixedP
  rw [toInt32_of_range _ (by omega) (by omega), toInt32_of_range _ (by omega) (by omega)]
  congr 1 <;> omega

theorem In_Intersect (p : Point) (r s : Rectangle) (h : p.In (r.Intersect s) = true) :
    p.In r = true ∧ p.In s = true := by
  unfold Rectangle.Intersect at h
  simp only [Rectangle.Empty, Bool.or_eq_true, decide_eq_true_eq] at h
  simp only [Point.In, Bool.and_eq_true, decide_eq_true_eq] at h ⊢
  split_ifs at h <;> simp only [ZR] at h <;> omega

theorem glyph_Face7x13 (pix : Nat → Nat) (dot : Point26_6) (c : Char) :
    (Face7x13 pix).Glyph dot c =
      (⟨⟨toInt32 (dot.X + 32) / 64, toInt32 (dot.Y + 32) / 64 - 11⟩,
        ⟨toInt32 (dot.X + 32) / 64 + 6, toInt32 (dot.Y + 32) / 64 + 2⟩⟩,
       ⟨0, (glyphIndex c : Int) * 13⟩, 448, true) := by
  have hadv : fixedI 7 = 448 := by decide
  by_cases h1 : 0x20 ≤ c.toNat ∧ c.toNat < 0x7f
  · have hf : (Face7x13 pix).findRange c.toNat = some ⟨0x20, 0x7f, 0⟩ := by
      simp only [Face.findRange, Face7x13, List.find?]
      have : (!(decide (c.toNat < 0x20) || decide (0x7f ≤ c.toNat))) = true := by
        simp; omega
      rw [this]
    simp only [Face.Glyph, hf, glyphIndex]
    rw [if_pos h1]
    simp only [Face7x13, hadv, add_zero]
    have hidx : ((c.toNat : Int) - ((32 : Nat) : Int)) * (11 + 2) = ((c.toNat - 32 : Nat) : Int) * 13 := by
      omega
    rw [hidx]
  · have hf : (Face7x13 pix).findRange c.toNat = none ∨
        (Face7x13 pix).findRange c.toNat = some ⟨0xfffd, 0xfffe, 95⟩ ∧ c.toNat = 0xfffd := by
      simp only [Face.findRange, Face7x13, List.find?]
      have : (!(decide (c.toNat < 0x20) || decide (0x7f ≤ c.toNat))) = false := by
        simp; omega
      rw [this]
      by_cases h2 : c.toNat = 0xfffd
      · right
        rw [h2]
        exact ⟨rfl, rfl⟩
      · left
        have : (!(decide (c.toNat < 0xfffd) || decide (0xfffe ≤ c.toNat))) = false := by
          simp; omega
        rw [this]
    have hf2 : (Face7x13 pix).findRange 0xfffd = some ⟨0xfffd, 0xfffe, 95⟩ := rfl
    rcases hf with hf | ⟨hf, hc⟩
    · simp only [Face.Glyph, hf, hf2, glyphIndex]
      rw [if_neg h1]
      simp only [Face7x13, hadv, add_zero]
      rfl
    · simp only [Face.Glyph, hf, glyphIndex]
      rw [if_neg h1]
      simp only [Face7x13, hadv, add_zero, hc]
      rfl

theorem DrawMaskOver_At_of_not_In (dst : Image) (r : Rectangle) (src : Image) (sp : Point)
    (mask : Image) (mp : Point) (x y : Int) (h : ¬ (Point.mk x y).In r = true) :
    (DrawMaskOver dst r src sp mask mp).At x y = dst.At x y := by
  unfold DrawMaskOver
  simp only
  split
  · rename_i hin
    exact absurd (In_Intersect _ _ _ (In_Intersect _ _ _ (In_Intersect _ _ _ hin).1).1).1 h
  · rfl

theorem DrawMaskOver_At_of_alpha_zero (dst : Image) (r : Rectangle) (src : Image) (sp : Point)
    (mask : Image) (mp : Point) (x y : Int)
    (h : (mask.At (mp.X + (x - r.Min.X)) (mp.Y + (y - r.Min.Y))).A = 0) :
    (DrawMaskOver dst r src sp mask mp).At x y = dst.At x y := by
  unfold DrawMaskOver
  simp only [h, if_true, ite_self]

theorem mask7x13_alpha (pix : Nat → Nat) (c : Char) (dx dy : Int)
    (h : glyphAlpha pix c dx dy = 0) :
    ((mask7x13 pix).At (0 + dx) ((glyphIndex c : Int) * 13 + dy)).A = 0 := by
  unfold mask7x13
  simp only
  split
  · simp only [zero_add]
    exact h
  · rfl

theorem drawRunes_cons (pix : Nat → Nat) (d : Drawer) (c : Char) (cs : List Char) (a b : Int)
    (hface : d.Face = Face7x13 pix) (hdot : d.Dot = ⟨64 * a, 64 * b⟩)
    (ha1 : -2 ^ 25 ≤ a) (ha2 : a + 7 < 2 ^ 25) (hb1 : -2 ^ 25 ≤ b) (hb2 : b < 2 ^ 25) :
    d.drawRunes (c :: cs) =
      Drawer.drawRunes
        { d with
          Dst := DrawMaskOver d.Dst ⟨⟨a, b - 11⟩, ⟨a + 6, b + 2⟩⟩ d.Src ⟨0, 0⟩ (mask7x13 pix)
            ⟨0, (glyphIndex c : Int) * 13⟩
          Dot := ⟨64 * (a + 7), 64 * b⟩ } cs := by
  have hne : (Rectangle.mk ⟨a, b - 11⟩ ⟨a + 6, b + 2⟩).Empty = false := by
    simp only [Rectangle.Empty, Bool.or_eq_false_iff, decide_eq_false_iff_not]
    constructor <;> omega
  have hadv : toInt32 (64 * a + 448) = 64 * (a + 7) := by
    rw [toInt32_of_range _ (by omega) (by omega)]
    omega
  rw [Drawer.drawRunes]
  simp only [hface, glyph_Face7x13, hdot, pixel_of_dot a ha1 (by omega),
    pixel_of_dot b hb1 hb2, hne, hadv]
  rfl

theorem inkedRunes_head (pix : Nat → Nat) (a b : Int) (c : Char) (cs : List Char) (x y : Int)
    (hx1 : a ≤ x) (hx2 : x < a + 6) (hy1 : b - 11 ≤ y) (hy2 : y < b + 2)
    (hink : glyphAlpha pix c (x - a) (y - (b - 11)) ≠ 0) :
    inkedRunes pix a b (c :: cs) x y := by
  refine ⟨0, by simp, ?_, ?_, hy1, hy2, ?_⟩
  · simpa using hx1
  · simpa using hx2
  · simpa using hink

theorem inkedRunes_tail (pix : Nat → Nat) (a b : Int) (c : Char) (cs : List Char) (x y : Int)
    (h : inkedRunes pix (a + 7) b cs x y) : inkedRunes pix a b (c :: cs) x y := by
  obtain ⟨i, hi, h1, h2, h3, h4, h5⟩ := h
  have he : a + 7 * ((i + 1 : Nat) : Int) = a + 7 + 7 * (i : Int) := by
    push_cast
    ring
  refine ⟨i + 1, by simpa using hi, ?_, ?_, h3, h4, ?_⟩
  · rw [he]; exact h1
  · rw [he]; exact h2
  · rw [he, List.getD_cons_succ]; exact h5

theorem drawRunes_frame (pix : Nat → Nat) (cs : List Char) :
    ∀ (d : Drawer) (a b : Int), d.Face = Face7x13 pix → d.Dot = ⟨64 * a, 64 * b⟩ →
      -2 ^ 25 ≤ a → a + 7 * (cs.length : Int) < 2 ^ 25 → -2 ^ 25 ≤ b → b < 2 ^ 25 →
      (d.drawRunes cs).Dst.Bounds = d.Dst.Bounds ∧
      (d.drawRunes cs).Dot = ⟨64 * (a + 7 * (cs.length : Int)), 64 * b⟩ ∧
      ∀ x y, ¬ inkedRunes pix a b cs x y → (d.drawRunes cs).Dst.At x y = d.Dst.At x y := by
  induction cs with
  | nil =>
    intro d a b _ hdot _ _ _ _
    refine ⟨rfl, ?_, fun _ _ _ => rfl⟩
    simp [Drawer.drawRunes, hdot]
  | cons c cs ih =>
    intro d a b hface hdot ha1 ha2 hb1 hb2
    have hlen : ((c :: cs).length : Int) = (cs.length : Int) + 1 := by
      simp
    rw [hlen] at ha2
    rw [drawRunes_cons pix d c cs a b hface hdot ha1 (by omega) hb1 hb2]
    obtain ⟨ihB, ihD, ihA⟩ := ih
      { d with
        Dst := DrawMaskOver d.Dst ⟨⟨a, b - 11⟩, ⟨a + 6, b + 2⟩⟩ d.Src ⟨0, 0⟩ (mask7x13 pix)
          ⟨0, (glyphIndex c : Int) * 13⟩
        Dot := ⟨64 * (a + 7), 64 * b⟩ } (a + 7) b hface rfl (by omega) (by omega) hb1 hb2
    refine ⟨ihB, ?_, ?_⟩
    · rw [ihD, hlen]
      congr 1
      ring
    · intro x y hnot
      rw [ihA x y (fun h => hnot (inkedRunes_tail pix a b c cs x y h))]
      simp only
      by_cases hin : (Point.mk x y).In ⟨⟨a, b - 11⟩, ⟨a + 6, b + 2⟩⟩ = true
      · apply DrawMaskOver_At_of_alpha_zero
        apply mask7x13_alpha
        by_contra hink
        simp only [Point.In, Bool.and_eq_true, decide_eq_true_eq] at hin
        exact hnot (inkedRunes_head pix a b c cs x y (by omega) (by omega) (by omega)
          (by omega) hink)
      · exact DrawMaskOver_At_of_not_In _ _ _ _ _ _ x y hin

theorem measureFrom_Face7x13 (pix : Nat → Nat) (cs : List Char) :
    ∀ adv : Int, 0 ≤ adv → adv + 448 * (cs.length : Int) < 2 ^ 31 →
      measureFrom (Face7x13 pix) adv cs = adv + 448 * (cs.length : Int) := by
  have hadv : fixedI 7 = 448 := by decide
  induction cs with
  | nil => intro adv _ _; simp [measureFrom]
  | cons c cs ih =>
    intro adv h0 h1
    have hlen : ((c :: cs).length : Int) = (cs.length : Int) + 1 := by
      simp
    rw [hlen] at h1 ⊢
    have hstep : measureFrom (Face7x13 pix) adv (c :: cs)
        = measureFrom (Face7x13 pix) (toInt32 (adv + 448)) cs := by
      rw [measureFrom]
      simp only [Face.GlyphAdvance, if_true]
      rw [show (Face7x13 pix).Advance = 7 from rfl, hadv]
    rw [hstep, toInt32_of_range _ (by omega) (by omega), ih (adv + 448) (by omega) (by omega)]
    ring

theorem measured_width (pix : Nat → Nat) (d : Drawer) (text : String)
    (hface : d.Face = Face7x13 pix) (hlen : text.length < 2 ^ 22) :
    Ceil (d.MeasureString text) = 7 * (text.length : Int) := by
  have hl : (text.toList.length : Int) = (text.length : Int) := rfl
  have hlen2 : (text.length : Int) < 2 ^ 22 := by exact_mod_cast hlen
  unfold Drawer.MeasureString
  rw [hface, measureFrom_Face7x13 pix _ 0 (le_refl 0) (by rw [hl]; omega), hl]
  unfold Ceil
  rw [toInt32_of_range _ (by omega) (by omega)]
  omega

theorem In_Intersect_of (p : Point) (r s : Rectangle) (hr : p.In r = true)
    (hs : p.In s = true) : p.In (r.Intersect s) = true := by
  unfold Rectangle.Intersect
  simp only [Rectangle.Empty, Bool.or_eq_true, decide_eq_true_eq]
  simp only [Point.In, Bool.and_eq_true, decide_eq_true_eq] at hr hs ⊢
  split_ifs <;> simp only [ZR] <;> omega

theorem labelCanvas_origin (img : Image) (h0 : img.Bounds.Min = ⟨0, 0⟩)
    (hw0 : 0 ≤ img.Bounds.Dx) (hw : img.Bounds.Dx < 2 ^ 25)
    (hh0 : 0 ≤ img.Bounds.Dy) (hh : img.Bounds.Dy + 15 < 2 ^ 25)
    (hmem : 4 * img.Bounds.Dx * (img.Bounds.Dy + 20) ≤ maxAlloc) :
    ∃ canvas, labelCanvas img = some canvas ∧
      canvas.Bounds = ⟨⟨0, 0⟩, ⟨img.Bounds.Dx, img.Bounds.Dy + 20⟩⟩ ∧
      (∀ x y, 0 ≤ x → x < img.Bounds.Dx → 0 ≤ y → y < img.Bounds.Dy →
        canvas.At x y = img.At x y) ∧
      (∀ x y, 0 ≤ x → x < img.Bounds.Dx → img.Bounds.Dy ≤ y → y < img.Bounds.Dy + 20 →
        canvas.At x y = White) := by
  rcases img with ⟨⟨⟨mx, my⟩, ⟨W, H⟩⟩, at0⟩
  simp only [Point.mk.injEq] at h0
  obtain ⟨rfl, rfl⟩ := h0
  simp only [Rectangle.Dx, Rectangle.Dy, sub_zero] at hw0 hw hh0 hh hmem ⊢
  have hrect : Rect 0 0 W (H + 20) = ⟨⟨0, 0⟩, ⟨W, H + 20⟩⟩ := by
    unfold Rect
    simp only [show ¬ (0 > W) by omega, show ¬ (0 > H + 20) by omega, if_false]
  have hnew : NewRGBA ⟨⟨0, 0⟩, ⟨W, H + 20⟩⟩
      = some { Bounds := ⟨⟨0, 0⟩, ⟨W, H + 20⟩⟩, At := fun _ _ => ⟨0, 0, 0, 0⟩ } := by
    unfold NewRGBA
    simp only [Rectangle.Dx, Rectangle.Dy, sub_zero]
    have hprod : 4 * W * (H + 20) < 2 ^ 63 := by
      have h1 : 4 * W * (H + 20) ≤ 4 * 2 ^ 25 * 2 ^ 26 := by
        apply Int.mul_le_mul <;> omega
      omega
    rw [if_pos ⟨hw0, by omega, by omega, hprod, hmem⟩]
  unfold labelCanvas
  simp only [Rectangle.Dx, Rectangle.Dy, sub_zero, hrect, hnew]
  refine ⟨_, rfl, rfl, ?_, ?_⟩
  · intro x y hx0 hx1 hy0 hy1
    have hin : (Point.mk x y).In
        ((Rectangle.Intersect ⟨⟨0, 0⟩, ⟨W, H⟩⟩ ⟨⟨0, 0⟩, ⟨W, H + 20⟩⟩).Intersect
          (Rectangle.Add ⟨⟨0, 0⟩, ⟨W, H⟩⟩ (Point.Sub ⟨0, 0⟩ ⟨0, 0⟩))) = true := by
      apply In_Intersect_of
      · apply In_Intersect_of <;>
          simp only [Point.In, Bool.and_eq_true, decide_eq_true_eq] <;> omega
      · simp only [Point.In, Rectangle.Add, Point.Sub, Bool.and_eq_true, decide_eq_true_eq]
        omega
    simp only [Draw, hin, if_true]
    congr 1 <;> omega
  · intro x y hx0 hx1 hy0 hy1
    have hout : ¬ (Point.mk x y).In
        ((Rectangle.Intersect ⟨⟨0, 0⟩, ⟨W, H⟩⟩ ⟨⟨0, 0⟩, ⟨W, H + 20⟩⟩).Intersect
          (Rectangle.Add ⟨⟨0, 0⟩, ⟨W, H⟩⟩ (Point.Sub ⟨0, 0⟩ ⟨0, 0⟩))) = true := by
      intro hc
      have := (In_Intersect _ _ _ (In_Intersect _ _ _ hc).1).1
      simp only [Point.In, Bool.and_eq_true, decide_eq_true_eq] at this
      omega
    have hfill : (Point.mk x y).In
        ((Rectangle.Intersect ⟨⟨0, 0⟩, ⟨W, H + 20⟩⟩ ⟨⟨0, 0⟩, ⟨W, H + 20⟩⟩).Intersect
          (Rectangle.Add (NewUniform White).Bounds (Point.Sub ⟨0, 0⟩ ⟨0, 0⟩))) = true := by
      apply In_Intersect_of
      · apply In_Intersect_of <;>
          simp only [Point.In, Bool.and_eq_true, decide_eq_true_eq] <;> omega
      · simp only [Point.In, Rectangle.Add, Point.Sub, NewUniform, Bool.and_eq_true,
          decide_eq_true_eq]
        omega
    simp only [Draw, hout, hfill, if_true, if_false]
    rfl

theorem label_offset_range (img : Image) (text : String) (hr : LabelInRange img text) :
    -2 ^ 25 ≤ goDiv (img.Bounds.Dx - 7 * (text.length : Int)) 2 ∧
    goDiv (img.Bounds.Dx - 7 * (text.length : Int)) 2 + 7 * (text.length : Int) < 2 ^ 25 := by
  obtain ⟨hw0, hw, _, _, hn⟩ := hr
  have hn2 : (text.length : Int) < 2 ^ 22 := by exact_mod_cast hn
  have hn0 : (0 : Int) ≤ (text.length : Int) := Int.ofNat_nonneg _
  obtain ⟨h1, h2, _, _⟩ := goDiv_two_bounds (img.Bounds.Dx - 7 * (text.length : Int))
  constructor <;> omega

theorem labelDrawer_Dot (pix : Nat → Nat) (dot0 : Point26_6) (canvas : Image) (img : Image)
    (text : String) (hr : LabelInRange img text) :
    (labelDrawer (Face7x13 pix) dot0 canvas img.Bounds text).Dot
      = ⟨64 * goDiv (img.Bounds.Dx - 7 * (text.length : Int)) 2, 64 * (img.Bounds.Dy + 15)⟩ := by
  obtain ⟨hx1, hx2⟩ := label_offset_range img text hr
  obtain ⟨hw0, hw, hh0, hh, hn⟩ := hr
  have hn0 : (0 : Int) ≤ (text.length : Int) := Int.ofNat_nonneg _
  unfold labelDrawer
  simp only
  rw [measured_width pix _ text rfl hn]
  exact fixedP_of_range _ _ hx1 (by omega) (by omega) hh

/-- C9 (amended): for every source image of width w and height h and every
text within the range of the 26.6 fixed-point coordinates (LabelInRange), the
measured text width is 7 pixels per rune, the drawer starts at the horizontal
offset (w - 7 n) / 2 (Go integer division) on the baseline y = h + 15, rune
number i is drawn in the cell from (x + 7 i, h + 4) to (x + 7 i + 6, h + 17),
the margins left and right of the measured text differ by at most one pixel
(also when the text is wider than the image), and the Dot given at
construction of the drawer has no effect on the result. -/
theorem addLabel_text_position (pix : Nat → Nat) (img : Image) (text : String)
    (dot0 : Point26_6) (canvas : Image) (hr : LabelInRange img text) :
    (∀ d : Drawer, d.Face = Face7x13 pix →
      Ceil (d.MeasureString text) = 7 * (text.length : Int)) ∧
    (labelDrawer (Face7x13 pix) dot0 canvas img.Bounds text).Dot
      = fixedP (goDiv (img.Bounds.Dx - 7 * (text.length : Int)) 2) (img.Bounds.Dy + 15) ∧
    (labelDrawer (Face7x13 pix) dot0 canvas img.Bounds text).Dot
      = ⟨64 * goDiv (img.Bounds.Dx - 7 * (text.length : Int)) 2, 64 * (img.Bounds.Dy + 15)⟩ ∧
    (∀ (i : Nat) (c : Char), i < text.length →
      ((Face7x13 pix).Glyph
        ((labelDrawer (Face7x13 pix) dot0 canvas img.Bounds text).drawRunes
          (text.toList.take i)).Dot c).1
        = ⟨⟨goDiv (img.Bounds.Dx - 7 * (text.length : Int)) 2 + 7 * (i : Int),
            img.Bounds.Dy + 15 - 11⟩,
           ⟨goDiv (img.Bounds.Dx - 7 * (text.length : Int)) 2 + 7 * (i : Int) + 6,
            img.Bounds.Dy + 15 + 2⟩⟩) ∧
    (-1 ≤ (img.Bounds.Dx - (goDiv (img.Bounds.Dx - 7 * (text.length : Int)) 2
          + 7 * (text.length : Int)))
        - goDiv (img.Bounds.Dx - 7 * (text.length : Int)) 2 ∧
      (img.Bounds.Dx - (goDiv (img.Bounds.Dx - 7 * (text.length : Int)) 2
          + 7 * (text.length : Int)))
        - goDiv (img.Bounds.Dx - 7 * (text.length : Int)) 2 ≤ 1) ∧
    addLabelFrom (Face7x13 pix) dot0 img text = addLabel (Face7x13 pix) img text := by
  obtain ⟨hx1, hx2⟩ := label_offset_range img text hr
  have hdot := labelDrawer_Dot pix dot0 canvas img text hr
  obtain ⟨hw0, hw, hh0, hh, hn⟩ := hr
  have hn0 : (0 : Int) ≤ (text.length : Int) := Int.ofNat_nonneg _
  refine ⟨?_, ?_, hdot, ?_, ?_, by rw [addLabel_eq]; rfl⟩
  · intro d hd
    exact measured_width pix d text hd hn
  · rw [hdot, fixedP_of_range _ _ hx1 (by omega) (by omega) hh]
  · intro i c hi
    have hi2 : (i : Int) < (text.length : Int) := by exact_mod_cast hi
    have hlen : ((text.toList.take i).length : Int) = (i : Int) := by
      have : text.toList.length = text.length := rfl
      rw [List.length_take, this, Nat.min_eq_left (Nat.le_of_lt hi)]
    obtain ⟨_, hD, _⟩ := drawRunes_frame pix (text.toList.take i)
      (labelDrawer (Face7x13 pix) dot0 canvas img.Bounds text) _ _ rfl hdot hx1
      (by rw [hlen]; omega) (by omega) hh
    rw [hD, hlen, glyph_Face7x13]
    simp only
    rw [pixel_of_dot _ (by omega) (by omega), pixel_of_dot _ (by omega) hh]
  · obtain ⟨h1, h2, _, _⟩ := goDiv_two_bounds (img.Bounds.Dx - 7 * (text.length : Int))
    constructor <;> omega

theorem LabelInRange_dotImage : LabelInRange (dotImage White) "A" := by
  decide

theorem addLabel_text_position_witness :
    LabelInRange (dotImage White) "A" ∧
    (labelDrawer (Face7x13 (fun _ => 255)) ⟨0, 0⟩ (dotImage White) (dotImage White).Bounds
        "A").Dot
      = ⟨64 * goDiv ((dotImage White).Bounds.Dx - 7 * (("A" : String).length : Int)) 2,
         64 * ((dotImage White).Bounds.Dy + 15)⟩ :=
  ⟨LabelInRange_dotImage,
   (addLabel_text_position (fun _ => 255) (dotImage White) "A" ⟨0, 0⟩ (dotImage White)
      LabelInRange_dotImage).2.2.1⟩

theorem toInt32_add_wrap (a b : Int) : toInt32 (toInt32 a + b) = toInt32 (a + b) := by
  unfold toInt32
  omega

theorem measureFrom_wrap (pix : Nat → Nat) (cs : List Char) :
    ∀ adv : Int, toInt32 (measureFrom (Face7x13 pix) adv cs)
      = toInt32 (adv + 448 * (cs.length : Int)) := by
  have hadv : fixedI 7 = 448 := by decide
  induction cs with
  | nil => intro adv; simp [measureFrom]
  | cons c cs ih =>
    intro adv
    have hlen : ((c :: cs).length : Int) = (cs.length : Int) + 1 := by
      simp
    have hstep : measureFrom (Face7x13 pix) adv (c :: cs)
        = measureFrom (Face7x13 pix) (toInt32 (adv + 448)) cs := by
      rw [measureFrom]
      simp only [Face.GlyphAdvance, if_true]
      rw [show (Face7x13 pix).Advance = 7 from rfl, hadv]
    rw [hstep, ih, toInt32_add_wrap, hlen]
    congr 1
    ring

theorem Ceil_measure_wrap (pix : Nat → Nat) (d : Drawer) (text : String)
    (hface : d.Face = Face7x13 pix) :
    Ceil (d.MeasureString text) = toInt32 (448 * (text.length : Int) + 63) / 64 := by
  have hl : (text.toList.length : Int) = (text.length : Int) := rfl
  have h1 := measureFrom_wrap pix text.toList 0
  unfold Ceil Drawer.MeasureString
  rw [hface, ← toInt32_add_wrap, h1, toInt32_add_wrap, hl, zero_add]

/-- C9 (as stated, refuted): it does not hold for every source image and text
that the first rune is drawn from the horizontal offset (w - 7 n) / 2 on the
baseline h + 15 and that the measured width is 7 pixels per rune. The
coordinates of the drawer are `fixed.Int26_6` values, an `int32` of 64ths of a
pixel: for an image of height 2^25 - 15 the baseline wraps to -2^25, for an
image of width 2^26 + 7 the offset 2^25 wraps to -2^25, and for a text of
4793491 runes the measured width wraps to a negative number. -/
theorem addLabel_text_position_overflow :
    ¬ (∀ (pix : Nat → Nat) (img : Image) (text : String) (dot0 : Point26_6) (canvas : Image)
        (c : Char), 0 ≤ img.Bounds.Dx → 0 ≤ img.Bounds.Dy →
        ((Face7x13 pix).Glyph (labelDrawer (Face7x13 pix) dot0 canvas img.Bounds text).Dot c).1
          = ⟨⟨goDiv (img.Bounds.Dx - 7 * (text.length : Int)) 2, img.Bounds.Dy + 15 - 11⟩,
             ⟨goDiv (img.Bounds.Dx - 7 * (text.length : Int)) 2 + 6,
              img.Bounds.Dy + 15 + 2⟩⟩) ∧
    (((Face7x13 (fun _ => 255)).Glyph
        (labelDrawer (Face7x13 (fun _ => 255)) ⟨0, 0⟩ tallImage tallImage.Bounds "A").Dot
        'A').1.Min.Y = -33554443 ∧
      tallImage.Bounds.Dy + 15 - 11 = 33554421) ∧
    (((Face7x13 (fun _ => 255)).Glyph
        (labelDrawer (Face7x13 (fun _ => 255)) ⟨0, 0⟩ wideImage wideImage.Bounds "A").Dot
        'A').1.Min.X = -33554432 ∧
      goDiv (wideImage.Bounds.Dx - 7 * (("A" : String).length : Int)) 2 = 33554432) ∧
    (Ceil (Drawer.MeasureString
        ⟨dotImage White, NewUniform Black, Face7x13 (fun _ => 255), ⟨0, 0⟩⟩ longText)
        = -33554427 ∧
      7 * (longText.length : Int) = 33554437) := by
  have htall : ((Face7x13 (fun _ => 255)).Glyph
      (labelDrawer (Face7x13 (fun _ => 255)) ⟨0, 0⟩ tallImage tallImage.Bounds "A").Dot
      'A').1.Min.Y = -33554443 := by
    rw [glyph_Face7x13]
    decide
  have hwide : ((Face7x13 (fun _ => 255)).Glyph
      (labelDrawer (Face7x13 (fun _ => 255)) ⟨0, 0⟩ wideImage wideImage.Bounds "A").Dot
      'A').1.Min.X = -33554432 := by
    rw [glyph_Face7x13]
    decide
  have hlong : (longText.length : Int) = 4793491 := by
    have h : longText.length = (List.replicate 4793491 'a').length := rfl
    rw [h, List.length_replicate]
    rfl
  refine ⟨?_, ⟨htall, by decide⟩, ⟨hwide, by decide⟩, ?_, ?_⟩
  · intro h
    have h1 := h (fun _ => 255) tallImage "A" ⟨0, 0⟩ tallImage 'A' (by decide) (by decide)
    have h2 := congrArg (fun r : Rectangle => r.Min.Y) h1
    simp only [htall] at h2
    revert h2
    decide
  · rw [Ceil_measure_wrap (fun _ => 255) _ longText rfl, hlong]
    decide
  · rw [hlong]
    decide

/-- C10 (amended): for every source image whose bounds start at (0, 0), of
width w and height h, whose canvas of 4 w (h + 20) bytes is within the 2^48
bytes `make` accepts (a larger one makes `image.NewRGBA` panic), and every
text within the range of the fixed-point coordinates (LabelInRange), addLabel
returns an image with bounds (0,0)-(w, h+20); every pixel of the top-left
w x h region equals the pixel of the source at the same place; and every
pixel of the added 20-row band that no rune of the text inks is white. -/
theorem addLabel_canvas_layout (pix : Nat → Nat) (img : Image) (text : String)
    (h0 : img.Bounds.Min = ⟨0, 0⟩) (hr : LabelInRange img text)
    (hmem : 4 * img.Bounds.Dx * (img.Bounds.Dy + 20) ≤ maxAlloc) :
    ∃ out, addLabel (Face7x13 pix) img text = some out ∧
      out.Bounds = ⟨⟨0, 0⟩, ⟨img.Bounds.Dx, img.Bounds.Dy + 20⟩⟩ ∧
      (∀ x y, 0 ≤ x → x < img.Bounds.Dx → 0 ≤ y → y < img.Bounds.Dy →
        out.At x y = img.At x y) ∧
      (∀ x y, 0 ≤ x → x < img.Bounds.Dx → img.Bounds.Dy ≤ y → y < img.Bounds.Dy + 20 →
        ¬ inkedRunes pix (goDiv (img.Bounds.Dx - 7 * (text.length : Int)) 2)
            (img.Bounds.Dy + 15) text.toList x y →
        out.At x y = White) := by
  obtain ⟨hx1, hx2⟩ := label_offset_range img text hr
  obtain ⟨canvas, hcanvas, hB, htop, hband⟩ :=
    labelCanvas_origin img h0 hr.1 hr.2.1 hr.2.2.1 hr.2.2.2.1 hmem
  have hdot := labelDrawer_Dot pix
    (fixedP (goDiv img.Bounds.Dx 2 - (text.utf8ByteSize : Int) * 3) (img.Bounds.Dy + 15))
    canvas img text hr
  have hl : (text.toList.length : Int) = (text.length : Int) := rfl
  obtain ⟨fB, _, fA⟩ := drawRunes_frame pix text.toList
    (labelDrawer (Face7x13 pix)
      (fixedP (goDiv img.Bounds.Dx 2 - (text.utf8ByteSize : Int) * 3) (img.Bounds.Dy + 15))
      canvas img.Bounds text) _ _ rfl hdot hx1 (by rw [hl]; exact hx2)
    (by have := hr.2.2.1; omega) hr.2.2.2.1
  have hout : addLabel (Face7x13 pix) img text
      = some ((labelDrawer (Face7x13 pix)
          (fixedP (goDiv img.Bounds.Dx 2 - (text.utf8ByteSize : Int) * 3) (img.Bounds.Dy + 15))
          canvas img.Bounds text).DrawString text).Dst := by
    rw [addLabel_eq]
    unfold addLabelFrom
    rw [hcanvas]
  refine ⟨_, hout, ?_, ?_, ?_⟩
  · unfold Drawer.DrawString
    rw [fB]
    exact hB
  · intro x y hx0 hx hy0 hy
    unfold Drawer.DrawString
    rw [fA x y]
    · exact htop x y hx0 hx hy0 hy
    · rintro ⟨i, _, _, _, h3, _, _⟩
      omega
  · intro x y hx0 hx hy0 hy hnot
    unfold Drawer.DrawString
    rw [fA x y hnot]
    exact hband x y hx0 hx hy0 hy

theorem addLabel_canvas_layout_witness :
    (dotImage Black).Bounds.Min = ⟨0, 0⟩ ∧ LabelInRange (dotImage Black) "A" ∧
    4 * (dotImage Black).Bounds.Dx * ((dotImage Black).Bounds.Dy + 20) ≤ maxAlloc ∧
    ∃ out, addLabel (Face7x13 (fun _ => 255)) (dotImage Black) "A" = some out ∧
      out.Bounds = ⟨⟨0, 0⟩, ⟨(dotImage Black).Bounds.Dx, (dotImage Black).Bounds.Dy + 20⟩⟩ ∧
      (∀ x y, 0 ≤ x → x < (dotImage Black).Bounds.Dx → 0 ≤ y →
        y < (dotImage Black).Bounds.Dy → out.At x y = (dotImage Black).At x y) ∧
      (∀ x y, 0 ≤ x → x < (dotImage Black).Bounds.Dx → (dotImage Black).Bounds.Dy ≤ y →
        y < (dotImage Black).Bounds.Dy + 20 →
        ¬ inkedRunes (fun _ => 255)
            (goDiv ((dotImage Black).Bounds.Dx - 7 * (("A" : String).length : Int)) 2)
            ((dotImage Black).Bounds.Dy + 15) ("A" : String).toList x y →
        out.At x y = White) :=
  ⟨rfl, by decide, by decide,
   addLabel_canvas_layout (fun _ => 255) (dotImage Black) "A" rfl
     (by decide) (by decide)⟩

/-- C10 (as stated, refuted): it does not hold for every source image that
addLabel returns an image whose top-left w x h region equals the source. For
a source whose bounds start at (1, 0) the copy is clipped away and the region
stays white; for a source at the origin of height 2^26 the baseline h + 15
wraps in the `int32` fixed-point coordinate to row 15, so the text is drawn
over the source; and for a source of 2^24 x 2^24 pixels the canvas is longer
than `make` accepts, `image.NewRGBA` panics and addLabel returns nothing. -/
theorem addLabel_canvas_layout_counterexample :
    ¬ (∀ (pix : Nat → Nat) (img : Image) (text : String),
        0 ≤ img.Bounds.Dx → 0 ≤ img.Bounds.Dy →
        4 * img.Bounds.Dx * (img.Bounds.Dy + 20) ≤ maxAlloc →
        ∃ out, addLabel (Face7x13 pix) img text = some out ∧
          out.Bounds = ⟨⟨0, 0⟩, ⟨img.Bounds.Dx, img.Bounds.Dy + 20⟩⟩ ∧
          ∀ dx dy, 0 ≤ dx → dx < img.Bounds.Dx → 0 ≤ dy → dy < img.Bounds.Dy →
            out.At dx dy = img.At (img.Bounds.Min.X + dx) (img.Bounds.Min.Y + dy)) ∧
    (∃ out, addLabel (Face7x13 (fun _ => 255)) shiftedDot "" = some out ∧
      out.At 0 0 = White ∧ shiftedDot.At 1 0 = Black ∧ shiftedDot.At 0 0 = Black) ∧
    (∃ out, addLabel (Face7x13 (fun _ => 255)) tallerImage "A" = some out ∧
      out.At 0 4 = Black ∧ tallerImage.At 0 4 = White) ∧
    (squareImage.Bounds.Min = ⟨0, 0⟩ ∧ LabelInRange squareImage "A" ∧
      addLabel (Face7x13 (fun _ => 255)) squareImage "A" = none) := by
  refine ⟨?_, ⟨_, rfl, by decide, rfl, rfl⟩, ⟨_, rfl, by decide, rfl⟩,
    ⟨rfl, by decide, rfl⟩⟩
  intro h
  obtain ⟨out, ho, _, hA⟩ := h (fun _ => 255) shiftedDot "" (by decide) (by decide)
    (by decide)
  have h1 := hA 0 0 (by decide) (by decide) (by decide) (by decide)
  have ho2 : addLabel (Face7x13 (fun _ => 255)) shiftedDot "" = some
      ((labelDrawer (Face7x13 (fun _ => 255))
        (fixedP (goDiv shiftedDot.Bounds.Dx 2 - (("" : String).utf8ByteSize : Int) * 3)
          (shiftedDot.Bounds.Dy + 15))
        (Draw (Draw { Bounds := ⟨⟨0, 0⟩, ⟨1, 21⟩⟩, At := fun _ _ => ⟨0, 0, 0, 0⟩ }
          ⟨⟨0, 0⟩, ⟨1, 21⟩⟩ (NewUniform White) ⟨0, 0⟩) shiftedDot.Bounds shiftedDot
          shiftedDot.Bounds.Min)
        shiftedDot.Bounds "").DrawString "").Dst := rfl
  rw [ho2] at ho
  injection ho with ho
  rw [← ho] at h1
  revert h1
  decide

end GoBarcodeService
